import Mathlib

/-!
Verification of the Deathroll repository's numerical core.

The exact recurrence engine (`DeathrollCalc.py`), the single-game state
machine (`DeathrollSim.py`) and the Monte Carlo driver's error path
(`DRSimulate.py`) are embedded shallowly: the memoized Python functions
become pure recursive Lean functions over `ℚ` (memoization is
value-transparent: a cache entry is only ever written with the value the
recurrence produces for that index, so the cached and the recomputed value
coincide), the randomized game loop becomes a fuel-indexed loop over an
explicit draw oracle, and the exception slip in `DRSimulate.py` is modelled
through Python's name-resolution rule at the raise site.
-/

/- ------------------------------------------------------------------
   Exact recurrence engine: DeathrollCalc.py
   ------------------------------------------------------------------ -/

mutual

/-- Embeds `__p_l1` / `__p_l1_n` of `DeathrollCalc.py`: the probability that
the first player LOSES a game whose starting roll is `n`.  Index 1 is the
manually seeded cache entry `__p_l1_n = [1]`; for larger `n` the code
computes `(2 + __sig_p_w1(n - 1)) / (n + 1)`.  The argument `0` is rejected
by `__posint` in the source (a `DeathrollCalcValueError`); the value returned
here for `0` is junk and no theorem below depends on it. -/
def p_l1 : ℕ → ℚ
  | 0 => 1
  | 1 => 1
  | n + 2 => (2 + sig_p_w1 (n + 1)) / ((n : ℚ) + 3)
termination_by n => 2 * n

/-- Embeds `__sig_p_w1` / `__sig_p_w1_n` of `DeathrollCalc.py`: the sum of
`1 - __p_l1(k)` for `k` in `[2, n]`, seeded with `__sig_p_w1_n = [0]` at
index 1.  For larger `n` the code computes
`__sig_p_w1(n - 1) + (1 - __p_l1(n))`. -/
def sig_p_w1 : ℕ → ℚ
  | 0 => 0
  | 1 => 0
  | n + 2 => sig_p_w1 (n + 1) + (1 - p_l1 (n + 2))
termination_by n => 2 * n + 1

end

/-- Embeds `p1_winrate` of `DeathrollCalc.py`: `1 - __p_l1(n)`. -/
def p1_winrate (n : ℕ) : ℚ := 1 - p_l1 n

/-- Embeds `p2_winrate` of `DeathrollCalc.py`: `__p_l1(n)`. -/
def p2_winrate (n : ℕ) : ℚ := p_l1 n

mutual

/-- Modelled from the spec's words (§4.2), for the refinement claim C2:
`L(1) = 1`, `L(n) = (2 + S(n-1)) / (n + 1)`.  The spec does not define
`L(0)`; the value at `0` is junk. -/
def L_spec : ℕ → ℚ
  | 0 => 1
  | 1 => 1
  | n + 2 => (2 + S_spec (n + 1)) / ((n : ℚ) + 3)
termination_by n => 2 * n

/-- Modelled from the spec's words (§4.2), for the refinement claim C2:
`S(1) = 0`, `S(n) = S(n-1) + (1 - L(n))`. -/
def S_spec : ℕ → ℚ
  | 0 => 0
  | 1 => 0
  | n + 2 => S_spec (n + 1) + (1 - L_spec (n + 2))
termination_by n => 2 * n + 1

end

theorem p_l1_eq_L_spec : ∀ n : ℕ, p_l1 n = L_spec n ∧ sig_p_w1 n = S_spec n := by
  intro n
  induction n using Nat.strong_induction_on with
  | _ n ih =>
    match n with
    | 0 => exact ⟨by simp [p_l1, L_spec], by simp [sig_p_w1, S_spec]⟩
    | 1 => exact ⟨by simp [p_l1, L_spec], by simp [sig_p_w1, S_spec]⟩
    | n + 2 =>
      have h1 := ih (n + 1) (by omega)
      constructor
      · rw [p_l1, L_spec, h1.2]
      · rw [sig_p_w1, S_spec, h1.2, p_l1, L_spec, h1.2]

/-- Closed form for `__sig_p_w1`: for `m ≥ 0`,
`sig_p_w1 (m+1) = (m-1)/2 + 1/(m+2)`. -/
lemma sig_p_w1_closed (m : ℕ) :
    sig_p_w1 (m + 1) = ((m : ℚ) - 1) / 2 + 1 / ((m : ℚ) + 2) := by
  induction m with
  | zero => simp [sig_p_w1]; norm_num
  | succ m ih =>
    show sig_p_w1 (m + 2) = _
    rw [sig_p_w1, p_l1, ih]
    have h2 : (m : ℚ) + 2 ≠ 0 := by positivity
    have h3 : (m : ℚ) + 3 ≠ 0 := by positivity
    push_cast
    field_simp
    ring

/-- Closed form for `__p_l1`: for `n = m + 2 ≥ 2`,
`p_l1 n = 1/2 + 1/(n (n+1))`. -/
lemma p_l1_closed (m : ℕ) :
    p_l1 (m + 2) = 1 / 2 + 1 / (((m : ℚ) + 2) * ((m : ℚ) + 3)) := by
  rw [p_l1, sig_p_w1_closed]
  have h2 : (m : ℚ) + 2 ≠ 0 := by positivity
  have h3 : (m : ℚ) + 3 ≠ 0 := by positivity
  field_simp
  ring

/-- Closed form for `p1_winrate`: for `n = m + 2 ≥ 2`,
`p1_winrate n = 1/2 - 1/(n (n+1))`. -/
lemma p1_winrate_closed (m : ℕ) :
    p1_winrate (m + 2) = 1 / 2 - 1 / (((m : ℚ) + 2) * ((m : ℚ) + 3)) := by
  rw [p1_winrate, p_l1_closed]
  ring

/-- C1 (corrected, counterexample): the claim `p1_winrate(1) = 1` is false on
the code.  The seeded cache entry `__p_l1_n[0] = 1` says the first player
LOSES the 1-sided game with probability 1, so `p1_winrate(1) = 1 - 1 = 0`. -/
theorem claim_C1_counterexample : ¬ (p1_winrate 1 = 1) := by
  rw [p1_winrate]
  rw [p_l1]
  norm_num

/-- C1 (corrected, amended claim): the degenerate base case of the exact
engine satisfies `p1_winrate(1) = 0`: by the code's convention the first
player rolls the forced 1 on a 1-sided die and loses, so `__p_l1(1) = 1` and
`p1_winrate(1) = 0`. -/
theorem claim_C1 : p1_winrate 1 = 0 := by
  rw [p1_winrate]
  rw [p_l1]
  norm_num

/-- C2 (confirmed): for every `n ≥ 2`, the exact engine's `p1_winrate n`
equals `1 - L n`, where `L` and `S` are defined directly from the spec's
recurrence `L(1) = 1`, `S(1) = 0`, `L(n) = (2 + S(n-1))/(n+1)`,
`S(n) = S(n-1) + (1 - L(n))`. -/
theorem claim_C2 (n : ℕ) (h : 2 ≤ n) : p1_winrate n = 1 - L_spec n := by
  rw [p1_winrate, (p_l1_eq_L_spec n).1]

theorem claim_C2_witness : (2 ≤ 2 ∧ p1_winrate 2 = 1 - L_spec 2) :=
  ⟨le_refl 2, claim_C2 2 (le_refl 2)⟩

/-- C8 (confirmed): `p1_winrate` is strictly increasing from `n = 2` on,
`p1_winrate 2 = 1/3`, every value with `n ≥ 2` stays below `1/2`, and the
values converge to `1/2` (for every positive rational `ε` all large enough
`n` are within `ε` of `1/2`). -/
theorem claim_C8 :
    (∀ n : ℕ, 2 ≤ n → p1_winrate n < p1_winrate (n + 1)) ∧
    p1_winrate 2 = 1 / 3 ∧
    (∀ n : ℕ, 2 ≤ n → p1_winrate n < 1 / 2) ∧
    (∀ ε : ℚ, 0 < ε → ∃ N : ℕ, ∀ n : ℕ, N ≤ n → |p1_winrate n - 1 / 2| < ε) := by
  have hval : ∀ m : ℕ, p1_winrate (m + 2) =
      1 / 2 - 1 / (((m : ℚ) + 2) * ((m : ℚ) + 3)) := p1_winrate_closed
  refine ⟨?_, ?_, ?_, ?_⟩
  · intro n hn
    obtain ⟨m, rfl⟩ := Nat.exists_eq_add_of_le hn
    rw [Nat.add_comm 2 m, hval m]
    have h1 : p1_winrate (m + 2 + 1) =
        1 / 2 - 1 / (((m : ℚ) + 3) * ((m : ℚ) + 4)) := by
      have := hval (m + 1)
      push_cast at this
      convert this using 3 <;> push_cast <;> ring
    rw [h1]
    have hm : (0 : ℚ) ≤ (m : ℚ) := Nat.cast_nonneg m
    have hpos : (0 : ℚ) < ((m : ℚ) + 2) * ((m : ℚ) + 3) := by positivity
    have hlt : ((m : ℚ) + 2) * ((m : ℚ) + 3) < ((m : ℚ) + 3) * ((m : ℚ) + 4) := by
      nlinarith
    have := one_div_lt_one_div_of_lt hpos hlt
    linarith
  · have := hval 0
    norm_num at this
    rw [show (2 : ℕ) = 0 + 2 by rfl] at this ⊢
    rw [this]
  · intro n hn
    obtain ⟨m, rfl⟩ := Nat.exists_eq_add_of_le hn
    rw [Nat.add_comm 2 m, hval m]
    have hpos : (0 : ℚ) < 1 / (((m : ℚ) + 2) * ((m : ℚ) + 3)) := by positivity
    linarith
  · intro ε hε
    refine ⟨Nat.ceil (1 / ε) + 2, ?_⟩
    intro n hn
    obtain ⟨m, rfl⟩ : ∃ m : ℕ, n = m + 2 := by
      refine ⟨n - 2, ?_⟩
      omega
    rw [hval m]
    have habs : |1 / 2 - 1 / (((m : ℚ) + 2) * ((m : ℚ) + 3)) - 1 / 2| =
        1 / (((m : ℚ) + 2) * ((m : ℚ) + 3)) := by
      rw [show (1 : ℚ) / 2 - 1 / (((m : ℚ) + 2) * ((m : ℚ) + 3)) - 1 / 2 =
        -(1 / (((m : ℚ) + 2) * ((m : ℚ) + 3))) by ring, abs_neg]
      exact abs_of_nonneg (by positivity)
    rw [habs]
    have hceil : (1 : ℚ) / ε ≤ (Nat.ceil (1 / ε) : ℚ) := Nat.le_ceil _
    have hcast : ((Nat.ceil (1 / ε) + 2 : ℕ) : ℚ) ≤ (m : ℚ) + 2 := by
      have : ((Nat.ceil (1 / ε) + 2 : ℕ) : ℚ) ≤ ((m + 2 : ℕ) : ℚ) := by
        exact_mod_cast hn
      push_cast at this ⊢
      linarith
    have hm2 : (1 : ℚ) / ε < (m : ℚ) + 2 := by
      push_cast at hcast
      linarith
    have hmpos : (0 : ℚ) < (m : ℚ) + 2 := by positivity
    have h1 : 1 / ((m : ℚ) + 2) < ε := by
      rw [div_lt_iff hmpos]
      rw [div_lt_iff hε] at hm2
      linarith
    have h2 : 1 / (((m : ℚ) + 2) * ((m : ℚ) + 3)) ≤ 1 / ((m : ℚ) + 2) := by
      apply one_div_le_one_div_of_le hmpos
      nlinarith [Nat.cast_nonneg (α := ℚ) m]
    linarith

theorem claim_C8_witness :
    p1_winrate 2 < p1_winrate 3 ∧ p1_winrate 2 = 1 / 3 ∧
    p1_winrate 2 < 1 / 2 ∧
    ∃ N : ℕ, ∀ n : ℕ, N ≤ n → |p1_winrate n - 1 / 2| < 1 :=
  ⟨claim_C8.1 2 (le_refl 2), claim_C8.2.1, claim_C8.2.2.1 2 (le_refl 2),
    claim_C8.2.2.2 1 (by norm_num)⟩

/- ------------------------------------------------------------------
   Range query: p1_winrate_range of DeathrollCalc.py
   ------------------------------------------------------------------ -/

/-- Python list slicing `xs[start : stop : step]` for a positive `step`:
the elements at indices `start, start + step, ...` that are below both
`stop` and the length of the list, in ascending index order. -/
def pySlice (xs : List α) (start stop sstep : ℕ) : List α :=
  ((List.range xs.length).filter
    (fun i => start ≤ i ∧ i < stop ∧ (i - start) % sstep = 0)).filterMap
    (fun i => xs[i]?)

/-- The `__p_l1_n` cache after `__p_l1(M)` has been forced: entry `i` holds
`__p_l1(i + 1)` (the cache is seeded with index 1 at entry 0 and appended to
in index order, always with the recurrence's value). -/
def p_l1_cache (M : ℕ) : List ℚ := (List.range M).map (fun i => p_l1 (i + 1))

/-- Embeds `p1_winrate_range` of `DeathrollCalc.py` in its forward branch
`1 ≤ m ≤ n`, `step ≥ 1`: the code forces `__p_l1(max(m, n))`, slices the
cache as `__p_l1_n[m - 1 : n - 1 : step]` and returns `1 - data`
elementwise.  The source's remaining branches (`n = 0`, `m > n` with the
step flipped to `-1`, i.e. reversed slicing) are outside every claim and
are not modelled; `none` stands both for them and for the
`DeathrollCalcValueError` raised on `m = 0`. -/
def p1_winrate_range (m n sstep : ℕ) : Option (List ℚ) :=
  if 1 ≤ m ∧ 1 ≤ n ∧ 1 ≤ sstep ∧ m ≤ n then
    some ((pySlice (p_l1_cache (max m n)) (m - 1) (n - 1) sstep).map
      (fun x => 1 - x))
  else none

/-- C6 (confirmed): `p1_winrate_range 2 10 1` returns exactly 8 values,
element-for-element the scalar values `p1_winrate 2, ..., p1_winrate 9`
in order (the upper bound 10 is excluded). -/
theorem claim_C6 :
    p1_winrate_range 2 10 1 =
      some ((List.range 8).map (fun i => p1_winrate (i + 2))) ∧
    (p1_winrate_range 2 10 1).map List.length = some 8 := by
  constructor
  · show p1_winrate_range 2 10 1 =
      some [p1_winrate 2, p1_winrate 3, p1_winrate 4, p1_winrate 5,
            p1_winrate 6, p1_winrate 7, p1_winrate 8, p1_winrate 9]
    rw [p1_winrate_range]
    norm_num
    show (pySlice (p_l1_cache 10) 1 9 1).map (fun x => 1 - x) = _
    rw [p_l1_cache, pySlice]
    simp [List.range_succ, p1_winrate]
  · rw [p1_winrate_range]
    norm_num
    show ((pySlice (p_l1_cache 10) 1 9 1).map (fun x => 1 - x)).length = 8
    rw [p_l1_cache, pySlice]
    simp [List.range_succ]

/- ------------------------------------------------------------------
   Expected rolls: __r / __sig_r / avg_rolls of DeathrollCalc.py
   ------------------------------------------------------------------ -/

/-- Division instrumented for the zero-divisor case: `none` when the divisor
is zero (a division-by-zero error / non-finite value in the source),
`some (a / b)` otherwise. -/
def safeDiv (a b : ℚ) : Option ℚ := if b = 0 then none else some (a / b)

mutual

/-- Embeds `__r` / `__r_n` of `DeathrollCalc.py`: the expected number of
rolls for starting roll `n`.  Index 1 is the manually seeded cache entry
`__r_n = [1]`; for larger `n` the code computes
`(n + __sig_r(n - 1)) / (n - 1)`, whose division is instrumented with
`safeDiv`.  Argument `0` is rejected by `__posint` in the source (`none`). -/
def r : ℕ → Option ℚ
  | 0 => none
  | 1 => some 1
  | n + 2 => do
      let s ← sig_r (n + 1)
      safeDiv (((n : ℚ) + 2) + s) (((n : ℚ) + 2) - 1)
termination_by n => 2 * n

/-- Embeds `__sig_r` / `__sig_r_n` of `DeathrollCalc.py`: the sum of
`__r(k)` for `k` in `[2, n]`, seeded with `__sig_r_n = [0]` at index 1.
For larger `n` the code computes `__sig_r(n - 1) + __r(n)`. -/
def sig_r : ℕ → Option ℚ
  | 0 => none
  | 1 => some 0
  | n + 2 => do
      let s ← sig_r (n + 1)
      let rv ← r (n + 2)
      some (s + rv)
termination_by n => 2 * n + 1

end

/-- Embeds `avg_rolls` of `DeathrollCalc.py`: `__posint(n)` (error on
`n < 1`, modelled as `none`) followed by `__r(n)`. -/
def avg_rolls (n : ℕ) : Option ℚ := if 1 ≤ n then r n else none

mutual

/-- Modelled from the spec's words (§4.2), for the refinement claim C3:
`R(1) = 1`, `R(n) = (n + T(n-1)) / (n - 1)` for `n ≥ 2`.  The spec does not
define `R(0)`; the value at `0` is junk. -/
def R_spec : ℕ → ℚ
  | 0 => 0
  | 1 => 1
  | n + 2 => (((n : ℚ) + 2) + T_spec (n + 1)) / (((n : ℚ) + 2) - 1)
termination_by n => 2 * n

/-- Modelled from the spec's words (§4.2), for the refinement claim C3:
`T(1) = 0`, `T(n) = T(n-1) + R(n)`. -/
def T_spec : ℕ → ℚ
  | 0 => 0
  | 1 => 0
  | n + 2 => T_spec (n + 1) + R_spec (n + 2)
termination_by n => 2 * n + 1

end

/-- The instrumented source recurrence always succeeds from index 1 on and
agrees with the spec's recurrence: the divisor `n - 1` is only ever
evaluated on the `n ≥ 2` branch, where it is positive. -/
lemma r_eq_R_spec : ∀ n : ℕ, 1 ≤ n → r n = some (R_spec n) ∧
    sig_r n = some (T_spec n) := by
  intro n
  induction n using Nat.strong_induction_on with
  | _ n ih =>
    match n with
    | 0 => exact fun h0 => absurd h0 (by norm_num)
    | 1 => exact fun _ => ⟨by rw [r, R_spec], by rw [sig_r, T_spec]⟩
    | n + 2 =>
      intro _
      have h1 := ih (n + 1) (by omega) (by omega)
      have hdiv : (((n : ℚ) + 2) - 1) ≠ 0 := by
        intro hc
        have : ((n : ℚ) + 1) = 0 := by linarith [sub_eq_zero.mp hc]
        have hge : (0 : ℚ) ≤ (n : ℚ) := Nat.cast_nonneg n
        linarith
      have hr : r (n + 2) = some (R_spec (n + 2)) := by
        rw [r, R_spec, h1.2]
        simp [Option.bind, safeDiv, hdiv]
      exact ⟨hr, by rw [sig_r, T_spec, h1.2, hr]; simp⟩

/-- C3 (confirmed): for every `n ≥ 1`, the exact engine's `avg_rolls n`
returns the value `R n` of the spec's recurrence `R(1) = 1`,
`R(n) = (n + T(n-1))/(n-1)`, `T(1) = 0`, `T(n) = T(n-1) + R(n)`. -/
theorem claim_C3 (n : ℕ) (h : 1 ≤ n) : avg_rolls n = some (R_spec n) := by
  rw [avg_rolls, if_pos h]
  exact (r_eq_R_spec n h).1

theorem claim_C3_witness : (1 ≤ 2 ∧ avg_rolls 2 = some (R_spec 2)) :=
  ⟨by norm_num, claim_C3 2 (by norm_num)⟩

/-- C9 (confirmed): `avg_rolls` is total on every positive input — the
instrumented division (`safeDiv`, which reports `none` exactly when the
divisor `n - 1` is zero) never fails, because index 1 is served from the
seeded cache entry `__r_n[0] = 1` and the dividing branch is only reached
with `n ≥ 2`. -/
theorem claim_C9 (n : ℕ) (h : 1 ≤ n) : (avg_rolls n).isSome = true := by
  rw [avg_rolls, if_pos h, (r_eq_R_spec n h).1]
  rfl

theorem claim_C9_witness : (1 ≤ 1 ∧ (avg_rolls 1).isSome = true) :=
  ⟨le_refl 1, claim_C9 1 (le_refl 1)⟩

/- ------------------------------------------------------------------
   Game state machine: DeathrollSim.py
   ------------------------------------------------------------------ -/

/-- Embeds the fields of the `DeathrollSim` class of `DeathrollSim.py`
(`__finished`, `__first_rolling`, `__detailed`, `__n`, `initial_n`,
`roll_count`, `winner`, `roll_sequence`). -/
structure DeathrollSim where
  finished : Bool
  first_rolling : Bool
  detailed : Bool
  n : ℕ
  initial_n : ℕ
  roll_count : ℕ
  winner : ℕ
  roll_sequence : Option (List ℕ)
  deriving Repr, DecidableEq

/-- The state set up by `DeathrollSim.__init__` before the roll loop runs
(lines 64–75). -/
def mkInit (start_roll : ℕ) (log_rolls : Bool) : DeathrollSim :=
  { finished := false
    first_rolling := true
    detailed := log_rolls
    n := start_roll
    initial_n := start_roll
    roll_count := 0
    winner := 0
    roll_sequence := if log_rolls then some [] else none }

/-- Embeds `DeathrollSim.__roll` (lines 89–101): the random draw
`randint(1, self.__n)` is supplied by the caller as `draw`; the state is
updated (`__n := draw`, `roll_count` incremented, `draw` appended to
`roll_sequence` when logging), and either the game finishes with the
non-rolling player as winner (`draw = 1`) or the active player toggles. -/
def roll (draw : ℕ) (s : DeathrollSim) : DeathrollSim :=
  let s1 : DeathrollSim :=
    { s with n := draw
             roll_count := s.roll_count + 1
             roll_sequence := if s.detailed
               then s.roll_sequence.map (fun l => l ++ [draw])
               else s.roll_sequence }
  if draw = 1 then
    { s1 with finished := true, winner := if s1.first_rolling then 2 else 1 }
  else
    { s1 with first_rolling := !s1.first_rolling }

/-- A draw oracle: `d k b` is the value `randint(1, b)` returns for the
`k`-th roll of the game when the current bound is `b`. -/
def ValidOracle (d : ℕ → ℕ → ℕ) : Prop :=
  ∀ k b, 1 ≤ b → 1 ≤ d k b ∧ d k b ≤ b

/-- Embeds the constructor's `while not self.__roll(): pass` loop
(lines 78–79), with explicit fuel since an adversarial draw stream could
keep the game alive forever; `none` means the fuel ran out before the game
finished. -/
def runLoop (d : ℕ → ℕ → ℕ) : ℕ → ℕ → DeathrollSim → Option DeathrollSim
  | 0, _, _ => none
  | fuel + 1, k, s =>
      let s1 := roll (d k s.n) s
      if s1.finished then some s1 else runLoop d fuel (k + 1) s1

/-- Embeds `DeathrollSim.__init__` end to end: argument check
(`start_roll < 1` raises `DeathrollValueError`, modelled as `none`), the
roll loop, and the late `roll_count = 0` fix-up for `initial_n == 1`
(lines 81–83). -/
def mkSim (d : ℕ → ℕ → ℕ) (fuel start_roll : ℕ) (log_rolls : Bool) :
    Option DeathrollSim :=
  if start_roll < 1 then none
  else (runLoop d fuel 0 (mkInit start_roll log_rolls)).map
    (fun s => if s.initial_n = 1 then { s with roll_count := 0 } else s)

/-- For start roll 1 any valid oracle forces the single draw to be 1, so
the game ends after one roll with the first player losing; the fix-up then
zeroes `roll_count`. -/
lemma mkSim_one (d : ℕ → ℕ → ℕ) (f : ℕ) (log : Bool) (hd : ValidOracle d) :
    mkSim d (f + 1) 1 log = some
      { finished := true
        first_rolling := true
        detailed := log
        n := 1
        initial_n := 1
        roll_count := 0
        winner := 2
        roll_sequence := if log then some ([] ++ [1]) else none } := by
  have h1 : d 0 1 = 1 := le_antisymm (hd 0 1 le_rfl).2 (hd 0 1 le_rfl).1
  rw [mkSim, if_neg (by norm_num), runLoop]
  simp only [mkInit, h1]
  cases log <;> rfl

/-- C7 (confirmed): a game constructed with `start_roll = 1` (either value
of `log_rolls`, any valid draw oracle, any sufficient fuel) reports
`roll_count = 0`: the single forced roll is counted by the loop and then
overwritten by the `initial_n == 1` fix-up. -/
theorem claim_C7 (d : ℕ → ℕ → ℕ) (f : ℕ) (log : Bool) (hd : ValidOracle d) :
    ∃ s, mkSim d (f + 1) 1 log = some s ∧ s.roll_count = 0 :=
  ⟨_, mkSim_one d f log hd, rfl⟩

theorem claim_C7_witness :
    ∃ s, mkSim (fun _ _ => 1) 1 1 true = some s ∧ s.roll_count = 0 :=
  claim_C7 (fun _ _ => 1) 0 true (fun _ b hb => ⟨le_refl 1, hb⟩)

/-- C10 (confirmed): a game constructed with `start_roll = 1` always records
`winner = 2` — the forced roll of 1 happens while the first player is
rolling, so the second player is recorded as the winner. -/
theorem claim_C10 (d : ℕ → ℕ → ℕ) (f : ℕ) (log : Bool) (hd : ValidOracle d) :
    ∃ s, mkSim d (f + 1) 1 log = some s ∧ s.winner = 2 :=
  ⟨_, mkSim_one d f log hd, rfl⟩

theorem claim_C10_witness :
    ∃ s, mkSim (fun _ _ => 1) 1 1 false = some s ∧ s.winner = 2 :=
  claim_C10 (fun _ _ => 1) 0 false (fun _ b hb => ⟨le_refl 1, hb⟩)

/-- A concrete legal outcome of the random draws for a game with
`start_roll = 5`: the first roll draws 3, every later roll draws 1. -/
def c4_draws : ℕ → ℕ → ℕ := fun k b => if k = 0 then min 3 b else 1

/-- C4 (code bug): running `DeathrollSim(5, log_rolls=True)` with the legal
draw outcome 3-then-1 produces `roll_sequence = [3, 1]`.  Its last element
is 1, its length equals `roll_count`, and consecutive entries are
non-increasing — but its first element is the first DRAWN value 3, not the
initial bound 5, contradicting the class docstring ("necessarily beginning
wth initial_n") and the spec. -/
theorem claim_C4_code_bug :
    ValidOracle c4_draws ∧
    ((mkSim c4_draws 2 5 true).map DeathrollSim.roll_sequence =
        some (some [3, 1]) ∧
      (mkSim c4_draws 2 5 true).map DeathrollSim.roll_count = some 2 ∧
      List.headI [3, 1] ≠ 5 ∧
      List.getLast? [3, 1] = some 1 ∧
      List.Chain' (fun a b => b ≤ a) [3, 1]) := by
  constructor
  · intro k b hb
    rw [c4_draws]
    by_cases hk : k = 0
    · rw [if_pos hk]
      exact ⟨le_min (by norm_num) hb, min_le_right _ _⟩
    · rw [if_neg hk]
      exact ⟨le_refl 1, hb⟩
  · refine ⟨by decide, by decide, by decide, by decide, ?_⟩
    exact List.chain'_cons.mpr ⟨by norm_num, List.chain'_singleton 1⟩

/- ------------------------------------------------------------------
   Monte Carlo driver's error path: deathroll_mc of DRSimulate.py
   ------------------------------------------------------------------ -/

/-- The names bound at module level in `DRSimulate.py` when the body of
`deathroll_mc` runs (imports, the two exception classes, the helper and the
two public functions).  What matters below is which exception-class names
exist: `DRSimulateValueError` and `DRSimulateFileError` are defined,
nothing else resembling them is. -/
def drsimulate_module_names : List String :=
  ["perf_counter", "sys", "drs", "np",
   "DRSimulateValueError", "DRSimulateFileError",
   "__posint", "deathroll_mc", "deathroll_mc_range"]

/-- Python name resolution at a `raise <name>(...)` site: if `name` is
unbound in every enclosing scope, executing the statement raises a
`NameError` instead of the named exception. -/
def resolve_raise (env : List String) (nm : String) : String :=
  if nm ∈ env then nm else "NameError"

/-- Embeds the try/except structure of `deathroll_mc` (`DRSimulate.py`,
lines 82–106): with `time_info` set the body writes timing diagnostics to
`outfile`, and an `OSError` from such a write transfers control to the
`except OSError` clause, which executes `raise DRSimualteFileError(...)`
(line 103, spelled exactly so).  That raise is modelled through
`resolve_raise` over the module's bound names.  When no write fails the
already-computed pair (player-1 win fraction, mean roll count) is returned
unchanged. -/
def deathroll_mc_model (time_info write_fails : Bool) (results : ℚ × ℚ) :
    Except String (ℚ × ℚ) :=
  if time_info && write_fails then
    Except.error (resolve_raise drsimulate_module_names "DRSimualteFileError")
  else
    Except.ok results

/-- C5 (code bug): when an `OSError` occurs while `deathroll_mc` writes its
timing diagnostics, the surfaced exception is a `NameError`, not the
documented `DRSimulateFileError`: line 103 misspells the class name as
`DRSimualteFileError`, which is unbound in the module, so Python's name
resolution fails before the intended exception can be constructed.  The
defined class `DRSimulateFileError` exists but is never raised. -/
theorem claim_C5_code_bug :
    deathroll_mc_model true true (1 / 2, 3) = Except.error "NameError" ∧
    "NameError" ≠ "DRSimulateFileError" ∧
    "DRSimualteFileError" ∉ drsimulate_module_names ∧
    "DRSimulateFileError" ∈ drsimulate_module_names ∧
    (∀ res : ℚ × ℚ, deathroll_mc_model true false res = Except.ok res) := by
  refine ⟨?_, by decide, by decide, by decide, fun res => rfl⟩
  have h : resolve_raise drsimulate_module_names "DRSimualteFileError" =
      "NameError" := by
    rw [resolve_raise, if_neg (by decide)]
  rw [deathroll_mc_model, h]
  rfl
